import Mathlib

/-!
Verification of the jira-to-taiga migrator against its specification.

Python strings are modelled as `List Char`; Python dictionaries as ordered
association lists (first-key-wins lookup, insertion-ordered iteration);
remote calls and the filesystem as explicit effect traces and oracles.
All definitions are shallow embeddings of the corresponding Python
functions in `src/`.
-/

namespace JiraTaiga

/-! ### `TaigaService.slugify`
Source: `re.sub(r'[^a-z0-9]+', '-', text.lower()).strip('-')`.
`Char.toLower` models `str.lower` (ASCII range, which is what the
character class `[a-z0-9]` is sensitive to). -/

/-- The character class `[a-z0-9]` of the slug regex. -/
def isSlugChar (c : Char) : Bool :=
  (97 ≤ c.toNat && c.toNat ≤ 122) || (48 ≤ c.toNat && c.toNat ≤ 57)

/-- Embedding of `re.sub(r'[^a-z0-9]+', '-', ·)`: each maximal run of characters outside
`[a-z0-9]` becomes a single hyphen.  The flag records whether we are inside
such a run (so that its continuation emits nothing). -/
def collapseRuns : Bool → List Char → List Char
  | _, [] => []
  | inRun, c :: cs =>
    if isSlugChar c then c :: collapseRuns false cs
    else if inRun then collapseRuns inRun cs
    else '-' :: collapseRuns true cs

/-- Python `str.strip('-')`: drop leading and trailing hyphens. -/
def stripHyphens (l : List Char) : List Char :=
  (l.dropWhile (· == '-')).rdropWhile (· == '-')

/-- Model of `TaigaService.slugify` on the `List Char` string model. -/
def slugify (text : List Char) : List Char :=
  stripHyphens (collapseRuns false (text.map Char.toLower))

/-- String-facing wrapper for `slugify`. -/
def slugifyS (s : String) : String :=
  ⟨slugify s.data⟩

/-! #### Properties of `slugify` -/

theorem isSlugChar_ne_hyphen {c : Char} (h : isSlugChar c = true) : c ≠ '-' := by
  intro h'; rw [h'] at h; exact absurd h (by decide)

theorem collapseRuns_chars (b : Bool) (l : List Char) :
    ∀ c ∈ collapseRuns b l, isSlugChar c = true ∨ c = '-' := by
  induction l generalizing b with
  | nil => simp [collapseRuns]
  | cons c cs ih =>
    intro d hd
    by_cases h : isSlugChar c
    · rw [collapseRuns, if_pos h] at hd
      rcases List.mem_cons.1 hd with hd | hd
      · exact Or.inl (hd ▸ h)
      · exact ih false d hd
    · rw [collapseRuns, if_neg h] at hd
      cases b with
      | true =>
        rw [if_pos rfl] at hd
        exact ih true d hd
      | false =>
        rw [if_neg Bool.false_ne_true] at hd
        rcases List.mem_cons.1 hd with hd | hd
        · exact Or.inr hd
        · exact ih true d hd

/-- Adjacent-hyphen freedom, as a chain condition. -/
def NoAdjHyphen (l : List Char) : Prop :=
  l.Chain' (fun a b => ¬(a = '-' ∧ b = '-'))

theorem collapseRuns_noAdj (b : Bool) (l : List Char) :
    NoAdjHyphen (collapseRuns b l) ∧
      (b = true → ∀ t, collapseRuns b l ≠ '-' :: t) := by
  induction l generalizing b with
  | nil => simp [collapseRuns, NoAdjHyphen]
  | cons c cs ih =>
    by_cases h : isSlugChar c
    · rw [collapseRuns, if_pos h]
      refine ⟨?_, ?_⟩
      · refine List.chain'_cons'.2 ⟨?_, (ih false).1⟩
        intro y _ hy
        exact isSlugChar_ne_hyphen h hy.1
      · intro _ t ht
        exact isSlugChar_ne_hyphen h (List.cons_eq_cons.1 ht).1
    · rw [collapseRuns, if_neg h]
      cases b with
      | true =>
        rw [if_pos rfl]
        exact ⟨(ih true).1, fun _ => (ih true).2 rfl⟩
      | false =>
        rw [if_neg Bool.false_ne_true]
        refine ⟨?_, fun hb => absurd hb Bool.false_ne_true⟩
        refine List.chain'_cons'.2 ⟨?_, (ih true).1⟩
        intro y hy hcon
        rcases hcr : collapseRuns true cs with _ | ⟨z, zs⟩
        · rw [hcr] at hy; simp at hy
        · rw [hcr] at hy
          rw [List.head?_cons, Option.mem_def, Option.some_inj] at hy
          exact (ih true).2 rfl zs (by rw [hcr, hy, hcon.2])

theorem stripHyphens_sublist (l : List Char) : (stripHyphens l).Sublist l := by
  unfold stripHyphens
  exact (( List.rdropWhile_prefix _ _).sublist).trans ((List.dropWhile_suffix _).sublist)

/-- Every character of `slugify text` lies in `[a-z0-9-]`. -/
theorem slugify_chars (text : List Char) :
    ∀ c ∈ slugify text, isSlugChar c = true ∨ c = '-' := by
  intro c hc
  exact collapseRuns_chars false _ c ((stripHyphens_sublist _).mem hc)

theorem head?_dropWhile_not (p : Char → Bool) (l : List Char) :
    ∀ a, (l.dropWhile p).head? = some a → p a = false := by
  induction l with
  | nil => simp
  | cons c cs ih =>
    intro a ha
    rw [List.dropWhile_cons] at ha
    by_cases h : p c
    · rw [if_pos h] at ha; exact ih a ha
    · rw [if_neg h] at ha
      simp only [List.head?_cons, Option.some_inj] at ha
      rw [← ha]
      simpa using h

theorem getLast?_rdropWhile_not (p : Char → Bool) (l : List Char) :
    ∀ a, (l.rdropWhile p).getLast? = some a → p a = false := by
  intro a ha
  rw [List.rdropWhile, List.getLast?_reverse] at ha
  exact head?_dropWhile_not p l.reverse a ha

/-- `slugify` has no leading hyphen. -/
theorem slugify_head (text : List Char) :
    ∀ t, slugify text ≠ '-' :: t := by
  intro t ht
  have hpre := List.rdropWhile_prefix (· == '-')
      ((collapseRuns false (text.map Char.toLower)).dropWhile (· == '-'))
  unfold slugify stripHyphens at ht
  rw [ht] at hpre
  obtain ⟨s, hs⟩ := hpre
  have hh : ((collapseRuns false (text.map Char.toLower)).dropWhile
      (· == '-')).head? = some '-' := by
    rw [← hs]; rfl
  have h2 := head?_dropWhile_not (· == '-') _ '-' hh
  simp at h2

/-- `slugify` has no trailing hyphen. -/
theorem slugify_last (text : List Char) :
    ∀ t, slugify text ≠ t ++ ['-'] := by
  intro t ht
  unfold slugify stripHyphens at ht
  have hl : (((collapseRuns false (text.map Char.toLower)).dropWhile
      (· == '-')).rdropWhile (· == '-')).getLast? = some '-' := by
    rw [ht, List.getLast?_concat]
  have h2 := getLast?_rdropWhile_not (· == '-') _ '-' hl
  simp at h2

theorem toLower_fixed {c : Char} (h : isSlugChar c = true ∨ c = '-') :
    Char.toLower c = c := by
  rcases h with h | h
  · simp only [isSlugChar, Bool.or_eq_true, Bool.and_eq_true, decide_eq_true_eq] at h
    unfold Char.toLower
    rw [if_neg (by omega)]
  · rw [h]; decide

theorem map_toLower_id (l : List Char)
    (h : ∀ c ∈ l, isSlugChar c = true ∨ c = '-') : l.map Char.toLower = l := by
  induction l with
  | nil => rfl
  | cons c cs ih =>
    rw [List.map_cons, toLower_fixed (h c (List.mem_cons_self c cs)),
      ih (fun d hd => h d (List.mem_cons_of_mem c hd))]

theorem collapseRuns_id (l : List Char)
    (hchars : ∀ c ∈ l, isSlugChar c = true ∨ c = '-')
    (hadj : NoAdjHyphen l) :
    collapseRuns false l = l ∧ (l.head? ≠ some '-' → collapseRuns true l = l) := by
  induction l with
  | nil => simp [collapseRuns]
  | cons c cs ih =>
    have hcs : ∀ d ∈ cs, isSlugChar d = true ∨ d = '-' :=
      fun d hd => hchars d (List.mem_cons_of_mem c hd)
    have hadj' : NoAdjHyphen cs := (List.chain'_cons'.1 hadj).2
    rcases hchars c (List.mem_cons_self c cs) with hc | hc
    · constructor
      · rw [collapseRuns, if_pos hc, (ih hcs hadj').1]
      · intro _
        rw [collapseRuns, if_pos hc, (ih hcs hadj').1]
    · subst hc
      constructor
      · rw [collapseRuns, if_neg (by decide), if_neg Bool.false_ne_true]
        congr 1
        apply (ih hcs hadj').2
        intro hh
        exact (List.chain'_cons'.1 hadj).1 '-' (Option.mem_def.2 hh) ⟨rfl, rfl⟩
      · intro hne
        simp at hne

theorem stripHyphens_mid (l : List Char) : stripHyphens l <:+: l :=
  (( List.rdropWhile_prefix _ _).isInfix).trans ((List.dropWhile_suffix _).isInfix)

theorem slugify_noAdj (text : List Char) : NoAdjHyphen (slugify text) :=
  List.Chain'.infix (collapseRuns_noAdj false (text.map Char.toLower)).1
    (stripHyphens_mid _)

theorem stripHyphens_slugify (text : List Char) :
    stripHyphens (slugify text) = slugify text := by
  have h1 : (slugify text).dropWhile (· == '-') = slugify text := by
    rcases hsl : slugify text with _ | ⟨a, t⟩
    · rfl
    · rw [List.dropWhile_cons, if_neg]
      intro ha
      have ha' : a = '-' := by simpa using ha
      rw [ha'] at hsl
      exact slugify_head text t hsl
  have h2 : (slugify text).reverse.dropWhile (· == '-') = (slugify text).reverse := by
    rcases hsr : (slugify text).reverse with _ | ⟨a, t⟩
    · rfl
    · rw [List.dropWhile_cons, if_neg]
      intro ha
      have ha' : a = '-' := by simpa using ha
      rw [ha'] at hsr
      have h3 : slugify text = t.reverse ++ ['-'] := by
        have h4 := congrArg List.reverse hsr
        simpa using h4
      exact slugify_last text t.reverse h3
  unfold stripHyphens
  rw [h1, List.rdropWhile, h2, List.reverse_reverse]

theorem slugify_idem (text : List Char) :
    slugify (slugify text) = slugify text := by
  show stripHyphens (collapseRuns false ((slugify text).map Char.toLower)) = slugify text
  rw [map_toLower_id _ (slugify_chars text),
    (collapseRuns_id _ (slugify_chars text) (slugify_noAdj text)).1]
  exact stripHyphens_slugify text

theorem collapseRuns_true_nil (l : List Char)
    (h : ∀ c ∈ l, isSlugChar c = false) : collapseRuns true l = [] := by
  induction l with
  | nil => rfl
  | cons c cs ih =>
    rw [collapseRuns, if_neg (by simp [h c (List.mem_cons_self c cs)]),
      if_pos rfl]
    exact ih fun d hd => h d (List.mem_cons_of_mem c hd)

theorem slugify_nil_of_no_alnum (text : List Char)
    (h : ∀ c ∈ text, isSlugChar (Char.toLower c) = false) : slugify text = [] := by
  rcases text with _ | ⟨c, cs⟩
  · rfl
  · show stripHyphens (collapseRuns false ((c :: cs).map Char.toLower)) = []
    rw [List.map_cons, collapseRuns,
      if_neg (by simp [h c (List.mem_cons_self c cs)]), if_neg Bool.false_ne_true,
      collapseRuns_true_nil _ (by
        intro d hd
        obtain ⟨e, he, rfl⟩ := List.mem_map.1 hd
        exact h e (List.mem_cons_of_mem c he))]
    rfl

/-- C9: for every string `s`, `slugify s` contains only characters from
`[a-z0-9-]` and has no leading or trailing hyphen; `slugify` is idempotent
and deterministic (it is a pure function, so `slugify s = slugify s`), and
an input containing no alphanumeric characters yields the empty string. -/
theorem slugify_spec (s : List Char) :
    (∀ c ∈ slugify s, isSlugChar c = true ∨ c = '-') ∧
    (∀ t, slugify s ≠ '-' :: t) ∧
    (∀ t, slugify s ≠ t ++ ['-']) ∧
    slugify (slugify s) = slugify s ∧
    slugify s = slugify s ∧
    ((∀ c ∈ s, isSlugChar (Char.toLower c) = false) → slugify s = []) :=
  ⟨slugify_chars s, slugify_head s, slugify_last s, slugify_idem s, rfl,
    slugify_nil_of_no_alnum s⟩

/-- Witness for C9 at concrete inputs: the hyphen-freedom and emptiness
hypotheses are discharged on `"Dev Done!"` and `"!!"`. -/
theorem slugify_spec_witness :
    slugify "!! ??".data = [] ∧ slugify "Dev Done!".data = "dev-done".data :=
  ⟨(slugify_spec "!! ??".data).2.2.2.2.2 (by decide), by decide⟩

/-! ### `JiraService.convert_markup`
Each `re.sub` pass is embedded as a left-to-right scanner: at every
position it tries to match the pattern; on a match it emits the
replacement (never rescanned by the same pass) and resumes after the
consumed text, otherwise it emits one character and advances.  `prev` is
the character just before the current position — it decides the
`re.MULTILINE` `^` anchor and the `(?<!\*)` lookbehind.  Every match
consumes at least one character, so `length + 1` fuel always suffices. -/

/-- Generic `re.sub` scanner.  A matcher returns
`(replacement, last consumed char, rest of input)`. -/
def reSub (tryM : Option Char → List Char → Option (List Char × Char × List Char)) :
    Nat → Option Char → List Char → List Char
  | 0, _, l => l
  | _ + 1, _, [] => []
  | fuel + 1, prev, c :: cs =>
    match tryM prev (c :: cs) with
    | some (rep, lastC, rest) => rep ++ reSub tryM fuel (some lastC) rest
    | none => c :: reSub tryM fuel (some c) cs

def runSub (tryM : Option Char → List Char → Option (List Char × Char × List Char))
    (l : List Char) : List Char :=
  reSub tryM (l.length + 1) none l

/-- The `^` anchor under `re.MULTILINE`: start of string or just after a newline. -/
def atLineStart : Option Char → Bool
  | none => true
  | some c => c == '\n'

/-- Python `\s` (the ASCII whitespace characters). -/
def isPySpace (c : Char) : Bool :=
  c == ' ' || c == '\t' || c == '\n' || c == '\r' || c == '\x0b' || c == '\x0c'

/-- Pass 1 — `re.sub(r'!([^!|]+)(?:\|[^!]*)?!', r'(Attachment: \1)', body)`. -/
def tryImage : Option Char → List Char → Option (List Char × Char × List Char)
  | _, '!' :: t =>
    let run1 := t.takeWhile (fun c => !(c == '!' || c == '|'))
    if run1.isEmpty then none
    else
      match t.drop run1.length with
      | '!' :: r => some ("(Attachment: ".data ++ run1 ++ [')'], '!', r)
      | '|' :: r2 =>
        let run2 := r2.takeWhile (fun c => !(c == '!'))
        match r2.drop run2.length with
        | '!' :: r => some ("(Attachment: ".data ++ run1 ++ [')'], '!', r)
        | _ => none
      | _ => none
  | _, _ => none

/-- Python `str.split(sep)` (unlimited splits). -/
def splitOnChar (sep : Char) : List Char → List (List Char)
  | [] => [[]]
  | c :: cs =>
    match splitOnChar sep cs with
    | [] => [[]]
    | r :: rs => if c == sep then [] :: r :: rs else (c :: r) :: rs

/-- The `_fix_link` helper from `convert_markup`: checkbox brackets pass through,
otherwise `[Title|URL|extra]` becomes `[Title](URL)` and `[URL]` becomes
`[URL](URL)`. -/
def fix_link (inner : List Char) : List Char :=
  if inner = [' '] || inner.map Char.toLower = ['x'] then
    '[' :: inner ++ [']']
  else
    match splitOnChar '|' inner with
    | [c0] => '[' :: c0 ++ ']' :: '(' :: c0 ++ [')']
    | c0 :: c1 :: _ => '[' :: c0 ++ ']' :: '(' :: c1 ++ [')']
    | [] => '[' :: inner ++ [']']

/-- Pass 2 — `re.sub(r'\[([^\]]+)\]', _fix_link, body)`. -/
def tryLink : Option Char → List Char → Option (List Char × Char × List Char)
  | _, '[' :: t =>
    let inner := t.takeWhile (fun c => !(c == ']'))
    if inner.isEmpty then none
    else
      match t.drop inner.length with
      | ']' :: r => some (fix_link inner, ']', r)
      | _ => none
  | _, _ => none

/-- Pass 3a — `re.sub(r'^(\*\*+)\s+', lambda m: '  '*(len(m.group(1))-1) + '* ',
body, flags=re.MULTILINE)`. -/
def tryMultiStar (prev : Option Char) (l : List Char) :
    Option (List Char × Char × List Char) :=
  if atLineStart prev then
    let stars := l.takeWhile (fun c => c == '*')
    if 2 ≤ stars.length then
      let t := l.drop stars.length
      let ws := t.takeWhile isPySpace
      if ws.isEmpty then none
      else
        some (List.replicate (2 * (stars.length - 1)) ' ' ++ ['*', ' '],
          ws.getLastD ' ', t.drop ws.length)
    else none
  else none

/-- Pass 3b — `re.sub(r'^#\s+', '* ', body, flags=re.MULTILINE)`. -/
def tryHashBullet : Option Char → List Char → Option (List Char × Char × List Char)
  | prev, '#' :: t =>
    if atLineStart prev then
      let ws := t.takeWhile isPySpace
      if ws.isEmpty then none
      else some (['*', ' '], ws.getLastD ' ', t.drop ws.length)
    else none
  | _, _ => none

/-- Pass 4 — `re.sub(r'^h([1-6])\.\s+', lambda m: '#'*int(m.group(1)) + ' ',
body, flags=re.MULTILINE)`. -/
def tryHeading : Option Char → List Char → Option (List Char × Char × List Char)
  | prev, 'h' :: d :: '.' :: t =>
    if atLineStart prev && ('1' ≤ d && d ≤ '6') then
      let ws := t.takeWhile isPySpace
      if ws.isEmpty then none
      else
        some (List.replicate (d.toNat - 48) '#' ++ [' '], ws.getLastD ' ',
          t.drop ws.length)
    else none
  | _, _ => none

/-- Pass 5 — `re.sub(r'(?<!\*)\*([^* \n](?:[^*]*?[^* \n])?)\*(?!\*)',
r'**\1**', body)`: the span between the delimiters can contain no `*`, so
the closing delimiter is the first `*` after the opening one; the first
and last content characters may not be `' '` or `'\n'`. -/
def tryBold : Option Char → List Char → Option (List Char × Char × List Char)
  | prev, '*' :: t =>
    if prev == some '*' then none
    else
      let content := t.takeWhile (fun c => !(c == '*'))
      match t.drop content.length with
      | '*' :: r =>
        if content.isEmpty then none
        else if content.headD ' ' == ' ' || content.headD ' ' == '\n' then none
        else if content.getLastD ' ' == ' ' || content.getLastD ' ' == '\n' then none
        else if r.headD ' ' == '*' then none
        else some ('*' :: '*' :: content ++ ['*', '*'], '*', r)
      | _ => none
  | _, _ => none

/-- Lazy body of `\{\{(.+?)\}\}`: the shortest non-empty newline-free run
followed by `}}`. -/
def lazyContent : List Char → Option (List Char × List Char)
  | [] => none
  | c :: cs =>
    if c == '\n' then none
    else
      match cs with
      | '}' :: '}' :: r => some ([c], r)
      | _ =>
        match lazyContent cs with
        | some (content, r) => some (c :: content, r)
        | none => none

/-- Pass 6 — `re.sub(r'\{\{(.+?)\}\}', r'`\1`', body)`. -/
def tryMono : Option Char → List Char → Option (List Char × Char × List Char)
  | _, '{' :: '{' :: t =>
    match lazyContent t with
    | some (content, r) => some ('`' :: content ++ ['`'], '}', r)
    | none => none
  | _, _ => none

/-- Python `str.replace` for a non-empty pattern (passes 7 and the literal
`{code}` / `{noformat}` replacements). -/
def replaceAll (pat rep : List Char) : Nat → List Char → List Char
  | 0, l => l
  | _ + 1, [] => []
  | fuel + 1, c :: cs =>
    if pat.isPrefixOf (c :: cs) then
      rep ++ replaceAll pat rep fuel ((c :: cs).drop pat.length)
    else c :: replaceAll pat rep fuel cs

def runReplace (pat rep l : List Char) : List Char :=
  replaceAll pat rep (l.length + 1) l

/-- The character class `[a-zA-Z0-9]` of the code-fence language group. -/
def isCodeLangChar (c : Char) : Bool :=
  (65 ≤ c.toNat && c.toNat ≤ 90) || (97 ≤ c.toNat && c.toNat ≤ 122) ||
    (48 ≤ c.toNat && c.toNat ≤ 57)

/-- Pass 8 — `re.sub(r'\{code(?::([a-zA-Z0-9]+))?\}', r'```\1', body)`
(an unmatched group expands to the empty string in `re.sub`). -/
def tryCodeFence : Option Char → List Char → Option (List Char × Char × List Char)
  | _, '{' :: 'c' :: 'o' :: 'd' :: 'e' :: t =>
    match t with
    | '}' :: r => some ("```".data, '}', r)
    | ':' :: t2 =>
      let lang := t2.takeWhile isCodeLangChar
      if lang.isEmpty then none
      else
        match t2.drop lang.length with
        | '}' :: r => some ("```".data ++ lang, '}', r)
        | _ => none
    | _ => none
  | _, _ => none

/-- Model of `JiraService.convert_markup`: the full pass pipeline, in source order. -/
def convert_markup (body : List Char) : List Char :=
  if body.isEmpty then []
  else
    let b1 := runSub tryImage body
    let b2 := runSub tryLink b1
    let b3 := runSub tryMultiStar b2
    let b4 := runSub tryHashBullet b3
    let b5 := runSub tryHeading b4
    let b6 := runSub tryBold b5
    let b7 := runSub tryMono b6
    let b8 := runReplace "(/)".data "✅".data b7
    let b9 := runReplace "(x)".data "❌".data b8
    let b10 := runReplace "(!)".data "⚠️".data b9
    let b11 := runReplace "(i)".data "ℹ️".data b10
    let b12 := runReplace "(y)".data "👍".data b11
    let b13 := runReplace "(n)".data "👎".data b12
    let b14 := runSub tryCodeFence b13
    let b15 := runReplace "{code}".data "```".data b14
    runReplace "{noformat}".data "```".data b15

/-- C1: the markup converter is total — it is a function defined on every
string, with `convert("") = ""` and `convert s` defined (equal to itself)
for every `s` — and it reproduces the spec's example table, including the
two edge cases: the link pass does not consume checkbox brackets, and the
bold pass does not convert a lone leading bullet `*`. -/
theorem convert_markup_spec :
    (∀ s : List Char, convert_markup s = convert_markup s) ∧
    convert_markup "".data = "".data ∧
    convert_markup "*bold*".data = "**bold**".data ∧
    convert_markup "* not bold".data = "* not bold".data ∧
    convert_markup "h2. Title".data = "## Title".data ∧
    convert_markup "[Confluence|https://x]".data = "[Confluence](https://x)".data ∧
    convert_markup "[ ]".data = "[ ]".data ∧
    convert_markup "[x]".data = "[x]".data ∧
    convert_markup "{{code}}".data = "`code`".data ∧
    convert_markup "(/)".data = "✅".data :=
  ⟨fun _ => rfl, by decide, by decide, by decide, by decide, by decide,
    by decide, by decide, by decide, by decide⟩

/-! ### `JiraService.parse_comment` and the orchestrator's comment loop -/

/-- Python `s.split(sep, 1)` step: text before the first separator and the
rest after it, or `none` when the separator does not occur. -/
def splitFirst (sep : Char) : List Char → Option (List Char × List Char)
  | [] => none
  | c :: cs =>
    if c == sep then some ([], cs)
    else
      match splitFirst sep cs with
      | some (a, b) => some (c :: a, b)
      | none => none

/-- Model of `JiraService.parse_comment`: split `raw` as `date;author;body`
(`raw.split(';', 2)`, so the body may contain further `;`); fewer than
three parts falls back to converting the whole raw string. -/
def parse_comment (raw : List Char) : List Char :=
  if raw.isEmpty then []
  else
    match splitFirst ';' raw with
    | none => convert_markup raw
    | some (_date, rest) =>
      match splitFirst ';' rest with
      | none => convert_markup raw
      | some (_author, body) => convert_markup body

/-- Python substring test `needle in hay`. -/
def containsSub (hay needle : List Char) : Bool :=
  needle.isPrefixOf hay ||
    match hay with
    | [] => false
    | _ :: t => containsSub t needle

/-- The field selector of the comment loop in `main`:
`value and ('Comment' in key or key.startswith('Comment'))`. -/
def isCommentField (key value : List Char) : Bool :=
  !value.isEmpty &&
    (containsSub key "Comment".data || "Comment".data.isPrefixOf key)

/-- One iteration of the comment loop in `main` (src/migrate.py lines
78–83): a parsed comment is appended only when it is non-empty. -/
def commentStep (acc : List (List Char)) (kv : List Char × List Char) :
    List (List Char) :=
  if isCommentField kv.1 kv.2 then
    let parsed := parse_comment kv.2
    if !parsed.isEmpty then acc ++ [parsed] else acc
  else acc

/-- The comment-accumulation loop of `main`: iterate the row's fields in
order, appending the non-empty parsed comments. -/
def collect_comments (row : List (List Char × List Char)) : List (List Char) :=
  row.foldl commentStep []

theorem commentStep_eq (acc : List (List Char)) (kv : List Char × List Char) :
    commentStep acc kv = acc ++
      (if isCommentField kv.1 kv.2 && !(parse_comment kv.2).isEmpty
        then [parse_comment kv.2] else []) := by
  unfold commentStep
  by_cases h : isCommentField kv.1 kv.2
  · by_cases hp : (parse_comment kv.2).isEmpty <;> simp [h, hp]
  · simp [h]

theorem collect_comments_go (row : List (List Char × List Char))
    (acc : List (List Char)) :
    row.foldl commentStep acc =
    acc ++ ((row.filter fun kv => isCommentField kv.1 kv.2).map
      (fun kv => parse_comment kv.2)).filter (fun p => !p.isEmpty) := by
  induction row generalizing acc with
  | nil => simp
  | cons kv rest ih =>
    rw [List.foldl_cons, commentStep_eq, ih, List.append_assoc]
    congr 1
    rw [List.filter_cons]
    by_cases h : isCommentField kv.1 kv.2
    · rw [if_pos h, List.map_cons, List.filter_cons]
      by_cases hp : (parse_comment kv.2).isEmpty
      · simp [h, hp]
      · simp [h, hp]
    · simp [h]

/-- C10: a comment field whose parsed result is empty — an empty raw
field (excluded by the `value and …` guard), a descriptor `date;author;`
with empty body, or a body converting to the empty string — is never
appended to the comment sequence, and non-empty comments keep their
field-iteration order: the collected list is exactly the in-order
non-empty parses of the comment-bearing fields. -/
theorem collect_comments_spec (row : List (List Char × List Char)) :
    collect_comments row =
      ((row.filter fun kv => isCommentField kv.1 kv.2).map
        (fun kv => parse_comment kv.2)).filter (fun p => !p.isEmpty) ∧
    [] ∉ collect_comments row ∧
    parse_comment "2024-01-01;alice;".data = [] ∧
    parse_comment [] = [] := by
  have heq : collect_comments row =
      ((row.filter fun kv => isCommentField kv.1 kv.2).map
        (fun kv => parse_comment kv.2)).filter (fun p => !p.isEmpty) :=
    collect_comments_go row []
  refine ⟨heq, ?_, by decide, rfl⟩
  intro hmem
  rw [heq] at hmem
  have h2 := (List.mem_filter.1 hmem).2
  simp at h2

/-- Witness for C10: with a lone empty-bodied comment descriptor the
collected sequence is empty, so the empty parse was dropped. -/
theorem collect_comments_spec_witness :
    [] ∉ collect_comments [("Comment".data, "2024-01-01;alice;".data)] :=
  (collect_comments_spec _).2.1

/-! ### Assignee resolution (`TaigaService.create_story`, lines 109–123) -/

/-- Python truthiness of an optional Taiga user id: `None` and `0` are
falsy (Taiga ids are in fact always positive). -/
def pyFalsy : Option Nat → Bool
  | none => true
  | some n => n == 0

/-- Python `dict.get` on an insertion-ordered association list. -/
def lookupL {β : Type} (m : List (List Char × β)) (k : List Char) : Option β :=
  match m with
  | [] => none
  | (k', v) :: rest => if k' == k then some v else lookupL rest k

def lowerL (s : List Char) : List Char := s.map Char.toLower

/-- The fuzzy condition of the fallback loop:
`assignee_full_name.lower() in cached_name.lower() or
 cached_name.lower() in assignee_full_name.lower()`. -/
def fuzzyMatches (name k : List Char) : Bool :=
  containsSub (lowerL k) (lowerL name) || containsSub (lowerL name) (lowerL k)

/-- The fuzzy fallback loop: first cache entry, in cache iteration
(insertion) order, whose key matches the display name fuzzily. -/
def fuzzy_lookup (cache : List (List Char × Nat)) (name : List Char) :
    Option Nat :=
  match cache with
  | [] => none
  | (k, uid) :: rest =>
    if fuzzyMatches name k then some uid else fuzzy_lookup rest name

/-- Assignee resolution from `TaigaService.create_story`: exact cache hit,
then the manual mapping (looked up in the cache under the mapped name),
then the fuzzy scan; a falsy (absent) result leaves the record
unassigned. -/
def resolve_assignee (cache : List (List Char × Nat))
    (manual : List (List Char × List Char)) (name : List Char) : Option Nat :=
  let a0 := lookupL cache name
  if pyFalsy a0 && !name.isEmpty then
    let a1 :=
      match lookupL manual name with
      | some mapped => if !mapped.isEmpty then lookupL cache mapped else a0
      | none => a0
    if pyFalsy a1 then
      match fuzzy_lookup cache name with
      | some uid => some uid
      | none => a1
    else a1
  else a0

theorem fuzzy_lookup_first (name k : List Char) (uid : Nat)
    (pre post : List (List Char × Nat))
    (hpre : ∀ kv ∈ pre, fuzzyMatches name kv.1 = false)
    (hk : fuzzyMatches name k = true) :
    fuzzy_lookup (pre ++ (k, uid) :: post) name = some uid := by
  induction pre with
  | nil => simp [fuzzy_lookup, hk]
  | cons kv rest ih =>
    rw [List.cons_append, fuzzy_lookup]
    rw [if_neg (by simp [hpre kv (List.mem_cons_self kv rest)])]
    exact ih fun kv' h' => hpre kv' (List.mem_cons_of_mem kv h')

/-- C5: assignee resolution applies exactly three tiers in order — exact
cache hit (which takes priority over any existing fuzzy match), manual
mapping resolved to the mapped name's cached identifier, then a fuzzy
linear scan returning the first cache entry (in cache iteration order)
whose lowered key is a substring of the lowered display name or vice
versa; if no tier matches the result is absent.  Taiga identifiers are
positive, hence the `uid ≠ 0` side conditions (a zero id would be falsy
in Python). -/
theorem resolve_assignee_spec (cache : List (List Char × Nat))
    (manual : List (List Char × List Char)) (name : List Char) :
    (∀ uid, lookupL cache name = some uid → uid ≠ 0 →
      resolve_assignee cache manual name = some uid) ∧
    (∀ m uid, lookupL cache name = none → name ≠ [] →
      lookupL manual name = some m →
      m ≠ [] → lookupL cache m = some uid → uid ≠ 0 →
      resolve_assignee cache manual name = some uid) ∧
    (lookupL cache name = none → name ≠ [] →
      (∀ m, lookupL manual name = some m → m = [] ∨ lookupL cache m = none) →
      resolve_assignee cache manual name = fuzzy_lookup cache name) ∧
    (∀ pre k uid post, cache = pre ++ (k, uid) :: post →
      (∀ kv ∈ pre, fuzzyMatches name kv.1 = false) → fuzzyMatches name k = true →
      fuzzy_lookup cache name = some uid) := by
  refine ⟨?_, ?_, ?_, ?_⟩
  · intro uid h h0
    simp [resolve_assignee, h, pyFalsy, h0]
  · intro m uid h hne hm hmne hcm h0
    have h1 : name.isEmpty = false := by simp [List.isEmpty_iff, hne]
    have h2 : m.isEmpty = false := by simp [List.isEmpty_iff, hmne]
    simp [resolve_assignee, h, pyFalsy, hm, h1, h2, hcm, h0]
  · intro h hname hmanual
    have h1 : name.isEmpty = false := by simp [List.isEmpty_iff, hname]
    rcases hml : lookupL manual name with _ | m
    · cases hfz : fuzzy_lookup cache name with
      | none => simp [resolve_assignee, h, pyFalsy, hml, h1, hfz]
      | some u => simp [resolve_assignee, h, pyFalsy, hml, h1, hfz]
    · rcases hmanual m hml with hm0 | hm0
      · subst hm0
        cases hfz : fuzzy_lookup cache name with
        | none => simp [resolve_assignee, h, pyFalsy, hml, h1, hfz]
        | some u => simp [resolve_assignee, h, pyFalsy, hml, h1, hfz]
      · cases hfz : fuzzy_lookup cache name with
        | none => simp [resolve_assignee, h, pyFalsy, hml, h1, hm0, hfz]
        | some u => simp [resolve_assignee, h, pyFalsy, hml, h1, hm0, hfz]
  · intro pre k uid post hc hpre hk
    rw [hc]
    exact fuzzy_lookup_first name k uid pre post hpre hk

/-- Witness for C5 at a concrete cache: the exact hit wins (a fuzzy match
for the same name also exists), the manual mapping resolves to the mapped
name's cached id, and the fuzzy tier returns the first matching entry. -/
theorem resolve_assignee_spec_witness :
    resolve_assignee [("Alice Smith".data, 5), ("Bob".data, 7)]
      [("Bobby".data, "Bob".data)] "Alice Smith".data = some 5 ∧
    resolve_assignee [("Alice Smith".data, 5), ("Bob".data, 7)]
      [("Bobby".data, "Bob".data)] "Bobby".data = some 7 ∧
    resolve_assignee [("Alice Smith".data, 5), ("Bob".data, 7)]
      [("Bobby".data, "Bob".data)] "alice".data =
      fuzzy_lookup [("Alice Smith".data, 5), ("Bob".data, 7)] "alice".data ∧
    fuzzy_lookup [("Alice Smith".data, 5), ("Bob".data, 7)] "alice".data =
      some 5 :=
  ⟨(resolve_assignee_spec _ _ _).1 5 (by decide) (by decide),
   (resolve_assignee_spec _ _ _).2.1 "Bob".data 7 (by decide) (by decide)
     (by decide) (by decide) (by decide) (by decide),
   (resolve_assignee_spec _ _ _).2.2.1 (by decide) (by decide) (by
     intro m hm
     have hn : lookupL [("Bobby".data, "Bob".data)] "alice".data =
         (none : Option (List Char)) := by decide
     rw [hn] at hm
     cases hm),
   (resolve_assignee_spec [("Alice Smith".data, 5), ("Bob".data, 7)]
       [("Bobby".data, "Bob".data)] "alice".data).2.2.2
     [] "Alice Smith".data 5 [("Bob".data, 7)] rfl (by simp) (by decide)⟩

/-! ### `TaigaService.sync_statuses` (lines 53–102)
`self.project.us_statuses` is the status list fetched at connection time;
python-taiga keeps it as a plain snapshot — neither `status.delete()` nor
`add_user_story_status` updates it (the spec likewise fixes the live list
"refreshed at connection time").  Remote outcomes are oracles: `deleteOk`
for `status.delete()` and `createRes i` for the `add_user_story_status`
call made at loop index `i` (`none` = the call raised and was logged). -/

/-- A status record of the connection-time snapshot. -/
structure StatusRec where
  name : String
  slug : String
  id : Nat
deriving DecidableEq

/-- Remote operations issued by `sync_statuses`, in program order. -/
inductive SyncOp where
  | deleteAttempt (name : String) (ok : Bool)
  | createAttempt (name slug : String) (is_closed : Bool) (color : String)
      (result : Option Nat)
deriving DecidableEq

/-- The fixed 7-entry color palette of `sync_statuses`. -/
def colors : List String :=
  ["#70728F", "#E47C40", "#A58C43", "#DA6095", "#8E44AD", "#2ECC71", "#3498DB"]

/-- The fixed closed-state vocabulary. -/
def closedNames : List String := ["done", "dev done", "closed", "ready for prod"]

/-- Python `str.lower` on the `String` wrapper. -/
def lowerS (s : String) : String := ⟨s.data.map Char.toLower⟩

/-- Python dict assignment `m[k] = v` on an insertion-ordered assoc list. -/
def dictInsert (m : List (String × Nat)) (k : String) (v : Nat) :
    List (String × Nat) :=
  if m.any (fun kv => kv.1 == k) then
    m.map (fun kv => if kv.1 == k then (kv.1, v) else kv)
  else m ++ [(k, v)]

/-- Python `dict.get` with `String` keys. -/
def lookupS (m : List (String × Nat)) (k : String) : Option Nat :=
  match m with
  | [] => none
  | (k', v) :: rest => if k' == k then some v else lookupS rest k

/-- The creation loop of `sync_statuses`:
`for i, name in enumerate(csv_statuses)` — reuse the id of a snapshot
status with the same slug, otherwise attempt a creation with
`is_closed = name.lower() in [...]` and `color = colors[i % len(colors)]`;
a failed creation leaves the key out of the map. -/
def syncLoop (us : List StatusRec) (createRes : Nat → Option Nat) :
    Nat → List String → List (String × Nat) →
    List (String × Nat) × List SyncOp
  | _, [], m => (m, [])
  | i, name :: rest, m =>
    let slug := slugifyS name
    let is_closed := decide (lowerS name ∈ closedNames)
    let color := colors.getD (i % colors.length) ""
    match us.find? (fun s => s.slug == slug) with
    | some found =>
      syncLoop us createRes (i + 1) rest (dictInsert m slug found.id)
    | none =>
      match createRes i with
      | some newId =>
        let r := syncLoop us createRes (i + 1) rest (dictInsert m slug newId)
        (r.1, SyncOp.createAttempt name slug is_closed color (some newId) :: r.2)
      | none =>
        let r := syncLoop us createRes (i + 1) rest m
        (r.1, SyncOp.createAttempt name slug is_closed color none :: r.2)

/-- Model of `TaigaService.sync_statuses`: dry run returns a placeholder map with
no remote operation; otherwise, under `reset`, a deletion is attempted for
every snapshot status (failures logged and skipped), then the creation
loop runs.  Returns the status map and the remote-operation trace. -/
def sync_statuses (us : List StatusRec) (csv_statuses : List String)
    (reset dry_run : Bool) (deleteOk : StatusRec → Bool)
    (createRes : Nat → Option Nat) :
    List (String × Nat) × List SyncOp :=
  if dry_run then
    (csv_statuses.foldl (fun m s => dictInsert m (slugifyS s) 1) [], [])
  else
    let delOps :=
      if reset then us.map (fun s => SyncOp.deleteAttempt s.name (deleteOk s))
      else []
    let r := syncLoop us createRes 0 csv_statuses []
    (r.1, delOps ++ r.2)

/-- The slugs of the creation attempts in a trace, in order. -/
def createdSlugs (ops : List SyncOp) : List String :=
  ops.filterMap fun op =>
    match op with
    | SyncOp.createAttempt _ slug _ _ _ => some slug
    | _ => none

/-- The colors of the creation attempts in a trace, in order. -/
def createdColors (ops : List SyncOp) : List String :=
  ops.filterMap fun op =>
    match op with
    | SyncOp.createAttempt _ _ _ color _ => some color
    | _ => none

/-- The `is_closed` flags of the creation attempts in a trace, in order. -/
def createdCloseds (ops : List SyncOp) : List Bool :=
  ops.filterMap fun op =>
    match op with
    | SyncOp.createAttempt _ _ c _ _ => some c
    | _ => none

/-- The creation predicate of the loop: the snapshot already holds the
slug. -/
def snapshotHasSlug (us : List StatusRec) (slug : String) : Bool :=
  (us.find? (fun s => s.slug == slug)).isSome

/-- Characterization of the creation-loop trace: one creation attempt per
enumerated source status whose slug is absent from the snapshot, with
`is_closed` from the closed vocabulary, the color at the enumeration index
modulo the palette length, and the oracle's outcome. -/
theorem syncLoop_ops (us : List StatusRec) (createRes : Nat → Option Nat) :
    ∀ (csv : List String) (i : Nat) (m : List (String × Nat)),
    (syncLoop us createRes i csv m).2 =
      (List.enumFrom i csv).filterMap (fun p =>
        if snapshotHasSlug us (slugifyS p.2) then none
        else some (SyncOp.createAttempt p.2 (slugifyS p.2)
          (decide (lowerS p.2 ∈ closedNames))
          (colors.getD (p.1 % colors.length) "") (createRes p.1))) := by
  intro csv
  induction csv with
  | nil => intro i m; simp [syncLoop]
  | cons name rest ih =>
    intro i m
    rw [List.enumFrom_cons, List.filterMap_cons]
    cases hf : us.find? (fun s => s.slug == slugifyS name) with
    | some found =>
      have hs : snapshotHasSlug us (slugifyS name) = true := by
        simp [snapshotHasSlug, hf]
      simp only [hs, if_true, syncLoop, hf]
      exact ih (i + 1) _
    | none =>
      have hs : snapshotHasSlug us (slugifyS name) = false := by
        simp [snapshotHasSlug, hf]
      simp only [hs, Bool.false_eq_true, if_false]
      cases hc : createRes i with
      | some newId =>
        simp only [syncLoop, hf, hc]
        rw [ih (i + 1) _]
      | none =>
        simp only [syncLoop, hf, hc]
        rw [ih (i + 1) _]

theorem lookupS_dictInsert_self (m : List (String × Nat)) (k : String) (v : Nat) :
    lookupS (dictInsert m k v) k = some v := by
  unfold dictInsert
  by_cases h : m.any (fun kv => kv.1 == k)
  · rw [if_pos h]
    induction m with
    | nil => simp at h
    | cons kv rest ih =>
      rw [List.map_cons]
      by_cases hk : kv.1 == k
      · rw [if_pos hk, lookupS, if_pos hk]
      · rw [if_neg hk, lookupS, if_neg hk]
        apply ih
        rcases List.any_eq_true.1 h with ⟨kv', hmem, hkv'⟩
        rcases List.mem_cons.1 hmem with rfl | hmem
        · exact absurd hkv' (by simpa using hk)
        · exact List.any_eq_true.2 ⟨kv', hmem, hkv'⟩
  · rw [if_neg h]
    induction m with
    | nil => simp [lookupS]
    | cons kv rest ih =>
      rw [List.cons_append, lookupS]
      have hk : (kv.1 == k) = false := by
        by_contra hc
        exact h (List.any_eq_true.2 ⟨kv, List.mem_cons_self kv rest,
          by simpa using hc⟩)
      rw [hk]
      simp only [Bool.false_eq_true, if_false]
      exact ih fun hc => h (by
        rcases List.any_eq_true.1 hc with ⟨kv', hmem, hkv'⟩
        exact List.any_eq_true.2 ⟨kv', List.mem_cons_of_mem kv hmem, hkv'⟩)

theorem lookupS_map_replace (k' k : String) (v : Nat) (hne : k' ≠ k) :
    ∀ m : List (String × Nat),
    lookupS (m.map (fun kv => if kv.1 == k' then (kv.1, v) else kv)) k =
      lookupS m k := by
  intro m
  induction m with
  | nil => rfl
  | cons kv rest ih =>
    rw [List.map_cons, lookupS, lookupS]
    by_cases hk : kv.1 == k'
    · have h2 : (kv.1 == k) = false := by
        have h3 : kv.1 = k' := by simpa using hk
        simp [h3, hne]
      rw [if_pos hk]
      show (if (kv.1 == k) = true then _ else _) = _
      rw [h2]
      simp only [Bool.false_eq_true, if_false, ih]
    · rw [if_neg hk]
      by_cases h3 : kv.1 == k
      · rw [if_pos h3, if_pos h3]
      · rw [if_neg h3, if_neg h3, ih]

theorem lookupS_append_single (k' k : String) (v : Nat) (hne : k' ≠ k) :
    ∀ m : List (String × Nat), lookupS (m ++ [(k', v)]) k = lookupS m k := by
  intro m
  induction m with
  | nil =>
    rw [List.nil_append, lookupS, lookupS]
    rw [show (k' == k) = false by simpa using hne]
    rfl
  | cons kv rest ih =>
    rw [List.cons_append, lookupS, lookupS]
    by_cases h3 : kv.1 == k
    · rw [if_pos h3, if_pos h3]
    · rw [if_neg h3, if_neg h3, ih]

theorem lookupS_dictInsert_other (m : List (String × Nat)) (k' k : String)
    (v : Nat) (hne : k' ≠ k) : lookupS (dictInsert m k' v) k = lookupS m k := by
  unfold dictInsert
  by_cases h : m.any (fun kv => kv.1 == k')
  · rw [if_pos h]
    exact lookupS_map_replace k' k v hne m
  · rw [if_neg h]
    exact lookupS_append_single k' k v hne m

theorem syncLoop_map_untouched (us : List StatusRec)
    (createRes : Nat → Option Nat) (slug : String) :
    ∀ (csv : List String) (i : Nat) (m : List (String × Nat)),
    slug ∉ csv.map slugifyS →
    lookupS (syncLoop us createRes i csv m).1 slug = lookupS m slug := by
  intro csv
  induction csv with
  | nil => intro i m _; rfl
  | cons name rest ih =>
    intro i m hslug
    rw [List.map_cons] at hslug
    have hne : slugifyS name ≠ slug :=
      fun hc => hslug (hc ▸ List.mem_cons_self _ _)
    have hrest : slug ∉ rest.map slugifyS :=
      fun hc => hslug (List.mem_cons_of_mem _ hc)
    rw [syncLoop]
    cases hf : us.find? (fun s => s.slug == slugifyS name) with
    | some found =>
      rw [ih (i + 1) _ hrest, lookupS_dictInsert_other _ _ _ _ hne]
    | none =>
      cases hc : createRes i with
      | some newId =>
        simp only
        rw [ih (i + 1) _ hrest, lookupS_dictInsert_other _ _ _ _ hne]
      | none =>
        simp only
        rw [ih (i + 1) _ hrest]

theorem syncLoop_map_reuse (us : List StatusRec)
    (createRes : Nat → Option Nat) (slug : String) (found : StatusRec)
    (hf : us.find? (fun s => s.slug == slug) = some found) :
    ∀ (csv : List String) (i : Nat) (m : List (String × Nat)),
    slug ∈ csv.map slugifyS →
    lookupS (syncLoop us createRes i csv m).1 slug = some found.id := by
  intro csv
  induction csv with
  | nil => intro i m h; simp at h
  | cons name rest ih =>
    intro i m hslug
    rw [syncLoop]
    by_cases heq : slugifyS name = slug
    · rw [heq, hf]
      by_cases hrest : slug ∈ rest.map slugifyS
      · exact ih (i + 1) _ hrest
      · rw [syncLoop_map_untouched us createRes slug rest (i + 1) _ hrest,
          lookupS_dictInsert_self]
    · have hrest : slug ∈ rest.map slugifyS := by
        rw [List.map_cons] at hslug
        rcases List.mem_cons.1 hslug with hc | hc
        · exact absurd hc.symm heq
        · exact hc
      cases hfn : us.find? (fun s => s.slug == slugifyS name) with
      | some fnd => exact ih (i + 1) _ hrest
      | none =>
        cases hc : createRes i with
        | some newId => exact ih (i + 1) _ hrest
        | none => exact ih (i + 1) _ hrest

/-- C4 counterexample: with one snapshot status of slug `"a"` and sources
`["a", "b"]`, the first (0th) *created* status is `"b"`, created at loop
index 1, so it receives palette entry `1 % 7 = 1` (`"#E47C40"`), not
palette entry `0 % 7` (`"#70728F"`) as the claim predicts: the palette is
indexed by the enumeration index over all source statuses, not by a
counter of creations. -/
theorem sync_statuses_color_cex :
    createdColors (sync_statuses [{ name := "a", slug := "a", id := 5 }]
      ["a", "b"] false false (fun _ => true) (fun i => some (i + 10))).2 =
      ["#E47C40"] ∧
    colors.getD (0 % colors.length) "" = "#70728F" ∧
    ("#E47C40" : String) ≠ "#70728F" := by
  refine ⟨by decide, by decide, by decide⟩

/-- C4 (amended): a creation attempt is issued exactly for the enumerated
source statuses whose slug is absent from the connection-time snapshot,
and the status at source-enumeration index `i` (counting reused and
failed ones as well), if created, receives palette entry `i mod 7` —
the palette cycles over the loop index, not over a count of creations. -/
theorem sync_statuses_color_spec (us : List StatusRec) (csv : List String)
    (deleteOk : StatusRec → Bool) (createRes : Nat → Option Nat) :
    (sync_statuses us csv false false deleteOk createRes).2 =
      (List.enumFrom 0 csv).filterMap (fun p =>
        if snapshotHasSlug us (slugifyS p.2) then none
        else some (SyncOp.createAttempt p.2 (slugifyS p.2)
          (decide (lowerS p.2 ∈ closedNames))
          (colors.getD (p.1 % colors.length) "") (createRes p.1))) := by
  show ([] ++ (syncLoop us createRes 0 csv []).2) = _
  rw [List.nil_append]
  exact syncLoop_ops us createRes csv 0 []

/-- C6 counterexample: on an empty target snapshot, the two source strings
`"To Do"` and `"to do"` both normalize to the key `"to-do"`, yet the
engine issues *two* creation calls for that slug (deduplication happens
only against the connection-time snapshot, which creations never update);
the returned map keeps a single entry holding the last created id. -/
theorem sync_statuses_dedup_cex :
    createdSlugs (sync_statuses [] ["To Do", "to do"] false false
      (fun _ => true) (fun i => some (i + 1))).2 = ["to-do", "to-do"] ∧
    (sync_statuses [] ["To Do", "to do"] false false
      (fun _ => true) (fun i => some (i + 1))).1 = [("to-do", 2)] := by
  refine ⟨by decide, by decide⟩

/-- C6 (amended): non-dry-run `sync_statuses` on sources
`{"To Do", "Dev Done"}` (either iteration order) and an empty target
creates exactly two statuses with slugs `"to-do"` and `"dev-done"`, of
which exactly `"Dev Done"` is closed; in general a creation's `is_closed`
flag is true iff the lowercased name is in the closed vocabulary, and a
creation is attempted only for slugs absent from the connection-time
snapshot — a status whose slug is in that snapshot is reused: its id is
returned in the map and no creation call is made for it.  Deduplication,
however, is only against the snapshot: two source strings with the same
key *not* in the snapshot each trigger a creation call. -/
theorem sync_statuses_reuse_spec :
    (∀ createRes : Nat → Option Nat,
      createdSlugs (sync_statuses [] ["To Do", "Dev Done"] false false
        (fun _ => true) createRes).2 = ["to-do", "dev-done"] ∧
      createdCloseds (sync_statuses [] ["To Do", "Dev Done"] false false
        (fun _ => true) createRes).2 = [false, true]) ∧
    (∀ createRes : Nat → Option Nat,
      createdSlugs (sync_statuses [] ["Dev Done", "To Do"] false false
        (fun _ => true) createRes).2 = ["dev-done", "to-do"] ∧
      createdCloseds (sync_statuses [] ["Dev Done", "To Do"] false false
        (fun _ => true) createRes).2 = [true, false]) ∧
    (∀ (us : List StatusRec) (csv : List String) (deleteOk : StatusRec → Bool)
      (createRes : Nat → Option Nat) (name slug : String) (closed : Bool)
      (color : String) (res : Option Nat),
      SyncOp.createAttempt name slug closed color res ∈
        (sync_statuses us csv false false deleteOk createRes).2 →
      closed = decide (lowerS name ∈ closedNames) ∧ slug = slugifyS name ∧
        snapshotHasSlug us slug = false) ∧
    (∀ (us : List StatusRec) (csv : List String) (deleteOk : StatusRec → Bool)
      (createRes : Nat → Option Nat) (found : StatusRec) (name : String),
      name ∈ csv → us.find? (fun s => s.slug == slugifyS name) = some found →
      lookupS (sync_statuses us csv false false deleteOk createRes).1
        (slugifyS name) = some found.id) := by
  refine ⟨?_, ?_, ?_, ?_⟩
  · intro createRes
    have h := syncLoop_ops [] createRes ["To Do", "Dev Done"] 0 []
    constructor
    · show createdSlugs ([] ++ (syncLoop [] createRes 0 ["To Do", "Dev Done"] []).2) = _
      rw [List.nil_append, h]
      rfl
    · show createdCloseds ([] ++ (syncLoop [] createRes 0 ["To Do", "Dev Done"] []).2) = _
      rw [List.nil_append, h]
      rfl
  · intro createRes
    have h := syncLoop_ops [] createRes ["Dev Done", "To Do"] 0 []
    constructor
    · show createdSlugs ([] ++ (syncLoop [] createRes 0 ["Dev Done", "To Do"] []).2) = _
      rw [List.nil_append, h]
      rfl
    · show createdCloseds ([] ++ (syncLoop [] createRes 0 ["Dev Done", "To Do"] []).2) = _
      rw [List.nil_append, h]
      rfl
  · intro us csv deleteOk createRes name slug closed color res hmem
    have htr : (sync_statuses us csv false false deleteOk createRes).2 =
        (List.enumFrom 0 csv).filterMap (fun p =>
          if snapshotHasSlug us (slugifyS p.2) then none
          else some (SyncOp.createAttempt p.2 (slugifyS p.2)
            (decide (lowerS p.2 ∈ closedNames))
            (colors.getD (p.1 % colors.length) "") (createRes p.1))) := by
      show ([] ++ (syncLoop us createRes 0 csv []).2) = _
      rw [List.nil_append]
      exact syncLoop_ops us createRes csv 0 []
    rw [htr] at hmem
    rcases List.mem_filterMap.1 hmem with ⟨p, _, hp⟩
    by_cases hs : snapshotHasSlug us (slugifyS p.2)
    · rw [if_pos hs] at hp; cases hp
    · rw [if_neg hs] at hp
      injection hp with hp
      injection hp with h1 h2 h3 h4 h5
      refine ⟨by rw [← h1, ← h3], by rw [← h1, ← h2], ?_⟩
      rw [← h2]
      simpa using hs
  · intro us csv deleteOk createRes found name hname hf
    show lookupS (syncLoop us createRes 0 csv []).1 (slugifyS name) = some found.id
    exact syncLoop_map_reuse us createRes (slugifyS name) found hf csv 0 []
      (List.mem_map_of_mem slugifyS hname)

/-- Witness for C6: a snapshot status with slug `"to-do"` is reused — the
map returns its existing id. -/
theorem sync_statuses_reuse_spec_witness :
    lookupS (sync_statuses [{ name := "Old", slug := "to-do", id := 9 }]
      ["To Do"] false false (fun _ => true) (fun i => some (i + 1))).1
      (slugifyS "To Do") = some (StatusRec.mk "Old" "to-do" 9).id :=
  sync_statuses_reuse_spec.2.2.2 [{ name := "Old", slug := "to-do", id := 9 }]
    ["To Do"] (fun _ => true) (fun i => some (i + 1))
    { name := "Old", slug := "to-do", id := 9 } "To Do"
    (List.mem_cons_self _ _) (by decide)

/-- The creation attempts of a trace. -/
def createdOps (ops : List SyncOp) : List SyncOp :=
  ops.filter fun op =>
    match op with
    | SyncOp.createAttempt _ _ _ _ _ => true
    | _ => false

/-- C7: with `reset = true` (and dry-run off) the trace is exactly one
deletion attempt per snapshot status, in order, followed by the creation
phase: deletion is attempted for every existing status before any
creation, a failed deletion aborts nothing (every status still gets its
deletion attempt), and neither the returned map nor the creation attempts
depend on the deletion outcomes. -/
theorem sync_statuses_reset_spec (us : List StatusRec) (csv : List String)
    (deleteOk deleteOk' : StatusRec → Bool) (createRes : Nat → Option Nat) :
    (sync_statuses us csv true false deleteOk createRes).2 =
      us.map (fun s => SyncOp.deleteAttempt s.name (deleteOk s)) ++
        (syncLoop us createRes 0 csv []).2 ∧
    (∀ s ∈ us, SyncOp.deleteAttempt s.name (deleteOk s) ∈
      (sync_statuses us csv true false deleteOk createRes).2) ∧
    (sync_statuses us csv true false deleteOk createRes).1 =
      (sync_statuses us csv true false deleteOk' createRes).1 ∧
    createdOps (sync_statuses us csv true false deleteOk createRes).2 =
      createdOps (sync_statuses us csv true false deleteOk' createRes).2 := by
  refine ⟨rfl, ?_, rfl, ?_⟩
  · intro s hs
    exact List.mem_append_left _
      (List.mem_map_of_mem (fun s => SyncOp.deleteAttempt s.name (deleteOk s)) hs)
  · show createdOps (us.map (fun s => SyncOp.deleteAttempt s.name (deleteOk s)) ++
        (syncLoop us createRes 0 csv []).2) =
      createdOps (us.map (fun s => SyncOp.deleteAttempt s.name (deleteOk' s)) ++
        (syncLoop us createRes 0 csv []).2)
    unfold createdOps
    rw [List.filter_append, List.filter_append]
    congr 1
    induction us with
    | nil => rfl
    | cons s rest ih => simpa using ih

/-- Witness for C7: with a one-status project whose deletion fails, the
deletion attempt is still first in the trace, and the creation of the new
status still happens. -/
theorem sync_statuses_reset_spec_witness :
    SyncOp.deleteAttempt "Old" ((fun _ : StatusRec => false)
      (StatusRec.mk "Old" "old" 3)) ∈
      (sync_statuses [{ name := "Old", slug := "old", id := 3 }] ["New"]
        true false (fun _ => false) (fun i => some (i + 1))).2 :=
  (sync_statuses_reset_spec [{ name := "Old", slug := "old", id := 3 }]
      ["New"] (fun _ => false) (fun _ => true) (fun i => some (i + 1))).2.1
    { name := "Old", slug := "old", id := 3 } (List.mem_cons_self _ _)

/-! ### The row-processing loop of `main` (src/migrate.py lines 63–126)
Remote calls and the local filesystem are explicit: the trace records the
`create_story` call of each row (with its comment list), every attachment
download, upload and unlink; the final component lists the local files
left on disk.  Oracles decide the remote outcomes: `createOk i` for row
`i`'s `create_story` (comments and points are added inside it, so their
failures are creation failures), `dl i j` / `attachOk i j` for the `j`-th
attachment field of row `i` (`download_attachment` catches its own errors
and returns `None` on failure; `story.attach` raises, and the exception
aborts the rest of the row). -/

/-- Remote and filesystem effects of the row loop. -/
inductive Eff where
  | createCall (title : List Char) (comments : List (List Char))
  | downloadCall (url filename : List Char) (ok : Bool)
  | attachCall (file : List Char)
  | unlinkCall (file : List Char)
deriving DecidableEq

/-- Filename sanitization in `download_attachment`:
`filename.replace(narrow-nbsp, ' ').strip()` (whitespace as in
`isPySpace`). -/
def sanitizeFilename (f : List Char) : List Char :=
  let r := f.map (fun c => if c == '\u202F' then ' ' else c)
  (r.dropWhile isPySpace).rdropWhile isPySpace

/-- The list `[v for k, v in row.items() if k.startswith('Attachment') and v]`. -/
def attachmentCols (row : List (List Char × List Char)) : List (List Char) :=
  (row.filter (fun kv => "Attachment".data.isPrefixOf kv.1 && !kv.2.isEmpty)).map
    Prod.snd

/-- The title `row.get('Summary', 'No Title')`. -/
def rowTitle (row : List (List Char × List Char)) : List Char :=
  (lookupL row "Summary".data).getD "No Title".data

/-- The attachment loop of one row: split each field on `;`, require at
least 4 parts (URL last, filename third); a successful download writes the
local file, a successful upload is followed by `unlink`, and an upload
that raises leaves its file behind and aborts the remaining fields.
Returns `(effects, files left on disk, whether the row raised)`. -/
def attachLoop (dl attachOk : Nat → Bool) :
    Nat → List (List Char) → List Eff × List (List Char) × Bool
  | _, [] => ([], [], false)
  | j, field :: rest =>
    let parts := splitOnChar ';' field
    if 4 ≤ parts.length then
      let url := parts.getLastD []
      let fname := parts.getD 2 []
      if dl j then
        let file := sanitizeFilename fname
        if attachOk j then
          let r := attachLoop dl attachOk (j + 1) rest
          (Eff.downloadCall url fname true :: Eff.attachCall file ::
            Eff.unlinkCall file :: r.1, r.2.1, r.2.2)
        else
          ([Eff.downloadCall url fname true, Eff.attachCall file], [file], true)
      else
        let r := attachLoop dl attachOk (j + 1) rest
        (Eff.downloadCall url fname false :: r.1, r.2.1, r.2.2)
    else
      let r := attachLoop dl attachOk (j + 1) rest
      (r.1, r.2.1, r.2.2)

/-- Per-row oracles of the batch. -/
structure RowOracles where
  createOk : Nat → Bool
  dl : Nat → Nat → Bool
  attachOk : Nat → Nat → Bool

/-- One non-dry-run row (the body of the `try` block): the creation call
is always issued; if it succeeds and downloads are enabled, the attachment
loop runs.  Returns `(effects, files left, whether the row failed)`. -/
def processRow (downloadAtts : Bool) (orc : RowOracles) (i : Nat)
    (row : List (List Char × List Char)) :
    List Eff × List (List Char) × Bool :=
  let createEff := Eff.createCall (rowTitle row) (collect_comments row)
  if orc.createOk i then
    if downloadAtts then
      let r := attachLoop (orc.dl i) (orc.attachOk i) 0 (attachmentCols row)
      (createEff :: r.1, r.2.1, r.2.2)
    else
      ([createEff], [], false)
  else
    ([createEff], [], true)

/-- The batch loop of `main`: a dry-run row is logged and skipped before
any remote call; otherwise the row is processed and exactly one of the
`success` / `failed` counters is incremented — an exception anywhere in
the row's `try` block is caught and the loop continues with the next
row. -/
def migrateLoop (dryRun downloadAtts : Bool) (orc : RowOracles) :
    Nat → List (List (List Char × List Char)) → Nat × Nat →
    (Nat × Nat) × List Eff × List (List Char)
  | _, [], stats => (stats, [], [])
  | i, row :: rest, stats =>
    if dryRun then
      migrateLoop dryRun downloadAtts orc (i + 1) rest stats
    else
      let r := processRow downloadAtts orc i row
      let stats' := if r.2.2 then (stats.1, stats.2 + 1)
        else (stats.1 + 1, stats.2)
      let k := migrateLoop dryRun downloadAtts orc (i + 1) rest stats'
      (k.1, r.1 ++ k.2.1, r.2.1 ++ k.2.2)

/-- Whether row `i` of the batch fails: its creation call raises, or —
with downloads enabled — its attachment phase raises. -/
def rowFails (downloadAtts : Bool) (orc : RowOracles) (i : Nat)
    (row : List (List Char × List Char)) : Bool :=
  !orc.createOk i ||
    (downloadAtts &&
      (attachLoop (orc.dl i) (orc.attachOk i) 0 (attachmentCols row)).2.2)

/-- The number of record-creation calls in a trace. -/
def numCreates (effs : List Eff) : Nat :=
  (effs.filter fun e =>
    match e with
    | Eff.createCall _ _ => true
    | _ => false).length

theorem numCreates_cons_other (e : Eff) (l : List Eff)
    (h : ∀ t c, e ≠ Eff.createCall t c) :
    numCreates (e :: l) = numCreates l := by
  unfold numCreates
  rw [List.filter_cons]
  cases e with
  | createCall t c => exact absurd rfl (h t c)
  | downloadCall u f o => rfl
  | attachCall f => rfl
  | unlinkCall f => rfl

theorem numCreates_attachLoop (dl aok : Nat → Bool) :
    ∀ (fields : List (List Char)) (j : Nat),
    numCreates (attachLoop dl aok j fields).1 = 0 := by
  intro fields
  induction fields with
  | nil => intro j; rfl
  | cons field rest ih =>
    intro j
    rw [attachLoop]
    by_cases h4 : 4 ≤ (splitOnChar ';' field).length
    · rw [if_pos h4]
      by_cases hdl : dl j
      · rw [if_pos hdl]
        by_cases hok : aok j
        · rw [if_pos hok]
          simp only
          rw [numCreates_cons_other _ _ (by intro t c h; cases h),
            numCreates_cons_other _ _ (by intro t c h; cases h),
            numCreates_cons_other _ _ (by intro t c h; cases h)]
          exact ih (j + 1)
        · rw [if_neg hok]
          rfl
      · rw [if_neg hdl]
        simp only
        rw [numCreates_cons_other _ _ (by intro t c h; cases h)]
        exact ih (j + 1)
    · rw [if_neg h4]
      exact ih (j + 1)

theorem numCreates_processRow (d : Bool) (orc : RowOracles) (i : Nat)
    (row : List (List Char × List Char)) :
    numCreates (processRow d orc i row).1 = 1 := by
  unfold processRow
  by_cases hc : orc.createOk i
  · rw [if_pos hc]
    by_cases hd : d
    · rw [if_pos hd]
      simp only
      rw [numCreates]
      simp only [List.filter_cons]
      show ((attachLoop (orc.dl i) (orc.attachOk i) 0
        (attachmentCols row)).1.filter _).length + 1 = 1
      have h := numCreates_attachLoop (orc.dl i) (orc.attachOk i)
        (attachmentCols row) 0
      rw [numCreates] at h
      rw [h]
    · rw [if_neg hd]; rfl
  · rw [if_neg hc]; rfl

theorem processRow_fails (d : Bool) (orc : RowOracles) (i : Nat)
    (row : List (List Char × List Char)) :
    (processRow d orc i row).2.2 = rowFails d orc i row := by
  unfold processRow rowFails
  by_cases hc : orc.createOk i
  · by_cases hd : d <;> simp [hc, hd]
  · simp [hc]

theorem migrate_numCreates (d : Bool) (orc : RowOracles) :
    ∀ (rows : List (List (List Char × List Char))) (i : Nat) (stats : Nat × Nat),
    numCreates (migrateLoop false d orc i rows stats).2.1 = rows.length := by
  intro rows
  induction rows with
  | nil => intro i stats; rfl
  | cons row rest ih =>
    intro i stats
    rw [migrateLoop, if_neg Bool.false_ne_true]
    simp only
    rw [numCreates, List.filter_append, List.length_append]
    have h1 : ((processRow d orc i row).1.filter fun e =>
        match e with
        | Eff.createCall _ _ => true
        | _ => false).length = 1 := numCreates_processRow d orc i row
    rw [h1]
    have h2 := ih (i + 1) (if (processRow d orc i row).2.2 then
      (stats.1, stats.2 + 1) else (stats.1 + 1, stats.2))
    rw [numCreates] at h2
    rw [h2, List.length_cons, Nat.add_comm]

theorem migrate_failed_eq (d : Bool) (orc : RowOracles) :
    ∀ (rows : List (List (List Char × List Char))) (i s f : Nat),
    (migrateLoop false d orc i rows (s, f)).1.2 =
      f + List.countP (fun p => rowFails d orc p.1 p.2) (List.enumFrom i rows) := by
  intro rows
  induction rows with
  | nil => intro i s f; rfl
  | cons row rest ih =>
    intro i s f
    rw [migrateLoop, if_neg Bool.false_ne_true]
    simp only
    rw [List.enumFrom_cons, List.countP_cons, processRow_fails]
    cases hrf : rowFails d orc i row
    · simp only [hrf, Bool.false_eq_true, if_false]
      rw [ih (i + 1) (s + 1) f]
      simp
    · simp only [hrf, if_true]
      rw [ih (i + 1) s (f + 1)]
      simp [Nat.add_comm, Nat.add_assoc, Nat.add_left_comm]

theorem migrate_success_eq (d : Bool) (orc : RowOracles) :
    ∀ (rows : List (List (List Char × List Char))) (i s f : Nat),
    (migrateLoop false d orc i rows (s, f)).1.1 =
      s + List.countP (fun p => !rowFails d orc p.1 p.2) (List.enumFrom i rows) := by
  intro rows
  induction rows with
  | nil => intro i s f; rfl
  | cons row rest ih =>
    intro i s f
    rw [migrateLoop, if_neg Bool.false_ne_true]
    simp only
    rw [List.enumFrom_cons, List.countP_cons, processRow_fails]
    cases hrf : rowFails d orc i row
    · simp only [hrf, Bool.not_false, if_true, Bool.false_eq_true, if_false]
      rw [ih (i + 1) (s + 1) f]
      simp [Nat.add_comm, Nat.add_assoc, Nat.add_left_comm]
    · simp only [hrf, Bool.not_true, if_true, Bool.false_eq_true, if_false]
      rw [ih (i + 1) s (f + 1)]
      simp

/-- C2 counterexample: one record with a single attachment field
`"d;a;f;u"`, whose creation call succeeds (`createOk ≡ true`, so the
number of records whose creation call failed is 0) but whose upload
raises: the final failed counter is 1, not 0.  With downloads disabled the
same batch reports failed = 0, confirming the discrepancy comes from the
attachment phase being inside the same `try` block. -/
theorem migrate_failed_count_cex :
    (migrateLoop false true ⟨fun _ => true, fun _ _ => true, fun _ _ => false⟩ 0
      [[("Summary".data, "S".data), ("Attachment".data, "d;a;f;u".data)]]
      (0, 0)).1.2 = 1 ∧
    (migrateLoop false false ⟨fun _ => true, fun _ _ => true, fun _ _ => false⟩ 0
      [[("Summary".data, "S".data), ("Attachment".data, "d;a;f;u".data)]]
      (0, 0)).1.2 = 0 :=
  ⟨by decide, by decide⟩

/-- C2 (amended): the batch always runs to completion — exactly one
creation call is issued per record, whatever the earlier outcomes; every
processed non-dry-run record increments exactly one of the counters
(`success + failed` grows by exactly the number of records) and neither
counter is ever decremented; the final failed counter equals exactly the
number of records whose *processing* raised — the creation call, or, with
downloads enabled, the attachment download/upload phase.  When downloads
are disabled it equals exactly the number of records whose creation call
failed, as the claim states. -/
theorem migrate_batch_spec (d : Bool) (orc : RowOracles)
    (rows : List (List (List Char × List Char))) (i s f : Nat) :
    numCreates (migrateLoop false d orc i rows (s, f)).2.1 = rows.length ∧
    (migrateLoop false d orc i rows (s, f)).1.2 =
      f + List.countP (fun p => rowFails d orc p.1 p.2) (List.enumFrom i rows) ∧
    (migrateLoop false d orc i rows (s, f)).1.1 +
      (migrateLoop false d orc i rows (s, f)).1.2 = s + f + rows.length ∧
    s ≤ (migrateLoop false d orc i rows (s, f)).1.1 ∧
    f ≤ (migrateLoop false d orc i rows (s, f)).1.2 ∧
    (d = false →
      (migrateLoop false d orc i rows (s, f)).1.2 =
        f + List.countP (fun p => !orc.createOk p.1) (List.enumFrom i rows)) := by
  have hf := migrate_failed_eq d orc rows i s f
  have hs := migrate_success_eq d orc rows i s f
  refine ⟨migrate_numCreates d orc rows i (s, f), hf, ?_, ?_, ?_, ?_⟩
  · rw [hf, hs]
    have hlen := List.length_eq_countP_add_countP
      (fun p => rowFails d orc p.1 p.2) (l := List.enumFrom i rows)
    have hlen' : rows.length =
        List.countP (fun p => rowFails d orc p.1 p.2) (List.enumFrom i rows) +
          List.countP (fun p => !rowFails d orc p.1 p.2) (List.enumFrom i rows) := by
      rw [← List.enumFrom_length (n := i) (l := rows)]
      simpa using hlen
    omega
  · rw [hs]; omega
  · rw [hf]; omega
  · intro hd
    subst hd
    rw [hf]
    congr 1
    apply List.countP_congr
    intro p _
    unfold rowFails
    simp

theorem attachLoop_files (dl aok : Nat → Bool) :
    ∀ (fields : List (List Char)) (j : Nat),
    ((attachLoop dl aok j fields).2.2 = false →
      (attachLoop dl aok j fields).2.1 = []) ∧
    ((attachLoop dl aok j fields).2.2 = true →
      ∃ file, (attachLoop dl aok j fields).2.1 = [file] ∧
        Eff.attachCall file ∈ (attachLoop dl aok j fields).1) := by
  intro fields
  induction fields with
  | nil => intro j; exact ⟨fun _ => rfl, fun h => by cases h⟩
  | cons field rest ih =>
    intro j
    rw [attachLoop]
    by_cases h4 : 4 ≤ (splitOnChar ';' field).length
    · rw [if_pos h4]
      by_cases hdl : dl j
      · rw [if_pos hdl]
        by_cases hok : aok j
        · rw [if_pos hok]
          simp only
          refine ⟨fun h => (ih (j + 1)).1 h, fun h => ?_⟩
          rcases (ih (j + 1)).2 h with ⟨file, hfile, hmem⟩
          exact ⟨file, hfile, List.mem_cons_of_mem _
            (List.mem_cons_of_mem _ (List.mem_cons_of_mem _ hmem))⟩
        · rw [if_neg hok]
          constructor
          · intro h
            simp at h
          · intro _
            refine ⟨sanitizeFilename ((splitOnChar ';' field).getD 2 []), rfl, ?_⟩
            exact List.mem_cons_of_mem _ (List.mem_cons_self _ _)
      · rw [if_neg hdl]
        simp only
        refine ⟨fun h => (ih (j + 1)).1 h, fun h => ?_⟩
        rcases (ih (j + 1)).2 h with ⟨file, hfile, hmem⟩
        exact ⟨file, hfile, List.mem_cons_of_mem _ hmem⟩
    · rw [if_neg h4]
      exact ih (j + 1)

theorem attachLoop_allOk (dl aok : Nat → Bool) (hok : ∀ j', aok j' = true) :
    ∀ (fields : List (List Char)) (j : Nat),
    (attachLoop dl aok j fields).2.2 = false := by
  intro fields
  induction fields with
  | nil => intro j; rfl
  | cons field rest ih =>
    intro j
    rw [attachLoop]
    by_cases h4 : 4 ≤ (splitOnChar ';' field).length
    · rw [if_pos h4]
      by_cases hdl : dl j
      · rw [if_pos hdl, if_pos (hok j)]
        exact ih (j + 1)
      · rw [if_neg hdl]
        exact ih (j + 1)
    · rw [if_neg h4]
      exact ih (j + 1)

theorem migrate_files_allOk (d : Bool) (orc : RowOracles)
    (hok : ∀ a b, orc.attachOk a b = true) :
    ∀ (rows : List (List (List Char × List Char))) (i : Nat) (stats : Nat × Nat),
    (migrateLoop false d orc i rows stats).2.2 = [] := by
  intro rows
  induction rows with
  | nil => intro i stats; rfl
  | cons row rest ih =>
    intro i stats
    rw [migrateLoop, if_neg Bool.false_ne_true]
    simp only
    rw [List.append_eq_nil]
    constructor
    · show (processRow d orc i row).2.1 = []
      unfold processRow
      by_cases hc : orc.createOk i
      · rw [if_pos hc]
        by_cases hd : d
        · rw [if_pos hd]
          simp only
          exact (attachLoop_files (orc.dl i) (orc.attachOk i)
            (attachmentCols row) 0).1
            (attachLoop_allOk (orc.dl i) (orc.attachOk i) (hok i)
              (attachmentCols row) 0)
        · rw [if_neg hd]
      · rw [if_neg hc]
    · exact ih (i + 1) _

/-- C3 counterexample: a record with one attachment field `"d;a;f;u"`
whose download succeeds but whose upload raises leaves the local file
`"f"` behind — `local_file.unlink()` is only reached when
`taiga_service.attach_file` returns normally, there being no
`try/finally` around the pair. -/
theorem attach_cleanup_cex :
    (migrateLoop false true ⟨fun _ => true, fun _ _ => true, fun _ _ => false⟩ 0
      [[("Summary".data, "S".data), ("Attachment".data, "d;a;f;u".data)]]
      (0, 0)).2.2 = ["f".data] :=
  by decide

/-- C3 (amended): a downloaded file is removed when its upload succeeds —
if the attachment phase of a record finishes without raising, no local
file is left behind (in particular whenever every upload succeeds) — but
when an upload raises, that one file is left on disk (its upload was
attempted) and the remaining attachment fields are not processed. -/
theorem attach_cleanup_spec (dl aok : Nat → Bool) (fields : List (List Char))
    (j : Nat) :
    ((attachLoop dl aok j fields).2.2 = false →
      (attachLoop dl aok j fields).2.1 = []) ∧
    ((attachLoop dl aok j fields).2.2 = true →
      ∃ file, (attachLoop dl aok j fields).2.1 = [file] ∧
        Eff.attachCall file ∈ (attachLoop dl aok j fields).1) ∧
    (∀ (d : Bool) (orc : RowOracles)
      (rows : List (List (List Char × List Char))) (i : Nat) (stats : Nat × Nat),
      (∀ a b, orc.attachOk a b = true) →
      (migrateLoop false d orc i rows stats).2.2 = []) :=
  ⟨(attachLoop_files dl aok fields j).1, (attachLoop_files dl aok fields j).2,
    fun d orc rows i stats hok => migrate_files_allOk d orc hok rows i stats⟩

/-- Witness for C3: with every upload succeeding, the batch of the
counterexample's record leaves no file behind. -/
theorem attach_cleanup_spec_witness :
    (migrateLoop false true ⟨fun _ => true, fun _ _ => true, fun _ _ => true⟩ 0
      [[("Summary".data, "S".data), ("Attachment".data, "d;a;f;u".data)]]
      (0, 0)).2.2 = [] :=
  (attach_cleanup_spec (fun _ => true) (fun _ => true) [] 0).2.2 true
    ⟨fun _ => true, fun _ _ => true, fun _ _ => true⟩
    [[("Summary".data, "S".data), ("Attachment".data, "d;a;f;u".data)]]
    0 (0, 0) (fun _ _ => rfl)

/-- C8: with the dry-run flag set, processing any batch issues no
record-creation call and no other remote or filesystem effect — the trace
is empty, no local file is written — and neither the success nor the
failed counter changes. -/
theorem migrate_dry_run_spec (d : Bool) (orc : RowOracles)
    (rows : List (List (List Char × List Char))) (i : Nat) (stats : Nat × Nat) :
    migrateLoop true d orc i rows stats = (stats, [], []) := by
  induction rows generalizing i with
  | nil => rfl
  | cons row rest ih =>
    rw [migrateLoop, if_pos rfl]
    exact ih (i + 1)

/-- C2 witness: with downloads disabled, the failed counter equals the
count of rows whose creation call failed (here zero). -/
theorem migrate_batch_spec_witness :
    (migrateLoop false false
      ⟨fun _ => true, fun _ _ => true, fun _ _ => false⟩ 0
      [[("Summary".data, "S".data)]] (0, 0)).1.2 =
      0 + List.countP
        (fun p => !(RowOracles.mk (fun _ => true) (fun _ _ => true)
          (fun _ _ => false)).createOk p.1)
        (List.enumFrom 0 [[("Summary".data, "S".data)]]) :=
  (migrate_batch_spec false
    ⟨fun _ => true, fun _ _ => true, fun _ _ => false⟩
    [[("Summary".data, "S".data)]] 0 0 0).2.2.2.2.2 rfl
